import Mathlib

/-!
Shallow embedding of the core of the Covid19 repository: the four topography
matrix generators of topography.py and the two compartmental models of
SEIR_model.py and SEIRDS_model.py.

Numpy float64 arrays are modelled over the real numbers. A numpy 2-D matrix
is a Mat: a recorded shape together with a total entry function that is zero
outside the allocated rectangle, exactly as np.zeros initialises it. The
imperative element writes of the generators become functional updates folded
over the same index lists the Python loops traverse, in the same order.

The model state arrays all share one grid shape and every operation on them
is either elementwise or works on the row-major flattening (the source
reshapes between (rows, cols) and (1, size) around the dot product), so the
compartments are stored here as flat row-major vectors Fin n → ℝ where n is
the total cell count; the flat index of cell (row, col) is row * cols + col,
as in the source.
-/

noncomputable section

/-- Dense matrix as produced by np.zeros((r, c)) and then mutated by element
or slice writes: a recorded shape plus a total entry function. -/
structure Mat where
  shape : ℕ × ℕ
  entry : ℕ → ℕ → ℝ

/-- Result of np.zeros((size, size)). -/
def zerosMat (size : ℕ) : Mat :=
  { shape := (size, size), entry := fun _ _ => 0 }

/-- Single element write result[r, c] = v. -/
def mset (M : Mat) (r c : ℕ) (v : ℝ) : Mat :=
  { M with entry := fun a b => if a = r ∧ b = c then v else M.entry a b }

/-- Python range(-n, n) as a list of integers. -/
def intRange (n : ℕ) : List ℤ :=
  List.map (fun k : ℕ => (k : ℤ) - (n : ℤ)) (List.range (2 * n))

/-- Innermost body of nearest_neighbour_topography (topography.py lines
22-29): for one column i and one offset pair, write
result[src, i] = neighbour_coupling when the offset is nonzero and the
neighbouring cell is inside the grid. The source computes
col_i = i % cols and row_i = i // cols once per i; they are inlined here. -/
def nnInnermost (rows cols : ℕ) (neighbour_coupling : ℝ) (i : ℕ)
    (row_offset : ℤ) (result : Mat) (col_offset : ℤ) : Mat :=
  if (row_offset ≠ 0 ∨ col_offset ≠ 0) ∧
      0 ≤ (i / cols : ℕ) + row_offset ∧ (i / cols : ℕ) + row_offset < (rows : ℤ) ∧
      0 ≤ (i % cols : ℕ) + col_offset ∧ (i % cols : ℕ) + col_offset < (cols : ℤ) then
    mset result ((((i / cols : ℕ) + row_offset) * cols + ((i % cols : ℕ) + col_offset)).toNat)
      i neighbour_coupling
  else result

/-- Loop over col_offset in range(-1, 2) of nearest_neighbour_topography. -/
def nnMiddle (rows cols : ℕ) (neighbour_coupling : ℝ) (i : ℕ)
    (result : Mat) (row_offset : ℤ) : Mat :=
  ([-1, 0, 1] : List ℤ).foldl (nnInnermost rows cols neighbour_coupling i row_offset) result

/-- One iteration of the outer loop of nearest_neighbour_topography
(topography.py lines 17-29): the diagonal write result[i, i] = self_coupling
followed by the loop over row_offset in range(-1, 2). -/
def nnColumn (rows cols : ℕ) (self_coupling neighbour_coupling : ℝ)
    (result : Mat) (i : ℕ) : Mat :=
  ([-1, 0, 1] : List ℤ).foldl (nnMiddle rows cols neighbour_coupling i)
    (mset result i i self_coupling)

/-- nearest_neighbour_topography (topography.py lines 4-31). -/
def nearest_neighbour_topography (shape : ℕ × ℕ)
    (self_coupling neighbour_coupling : ℝ) : Mat :=
  (List.range (shape.1 * shape.2)).foldl
    (nnColumn shape.1 shape.2 self_coupling neighbour_coupling)
    (zerosMat (shape.1 * shape.2))

/-- Innermost body of exponential_topography (topography.py lines 50-57):
for one column i and one offset pair, write
result[src, i] = self_coupling * exp(-distance * decay) with
distance = sqrt(row_offset^2 + col_offset^2) when the offset cell lies
inside the grid. -/
def expInnermost (rows cols : ℕ) (self_coupling decay : ℝ) (i : ℕ)
    (row_offset : ℤ) (result : Mat) (col_offset : ℤ) : Mat :=
  if 0 ≤ (i / cols : ℕ) + row_offset ∧ (i / cols : ℕ) + row_offset < (rows : ℤ) ∧
      0 ≤ (i % cols : ℕ) + col_offset ∧ (i % cols : ℕ) + col_offset < (cols : ℤ) then
    mset result ((((i / cols : ℕ) + row_offset) * cols + ((i % cols : ℕ) + col_offset)).toNat)
      i (self_coupling *
        Real.exp (-(Real.sqrt ((row_offset : ℝ) ^ 2 + (col_offset : ℝ) ^ 2)) * decay))
  else result

/-- Loop over col_offset in range(-cols, cols) of exponential_topography. -/
def expMiddle (rows cols : ℕ) (self_coupling decay : ℝ) (i : ℕ)
    (result : Mat) (row_offset : ℤ) : Mat :=
  (intRange cols).foldl (expInnermost rows cols self_coupling decay i row_offset) result

/-- One iteration of the outer loop of exponential_topography: the loop over
row_offset in range(-rows, rows). -/
def expColumn (rows cols : ℕ) (self_coupling decay : ℝ)
    (result : Mat) (i : ℕ) : Mat :=
  (intRange rows).foldl (expMiddle rows cols self_coupling decay i) result

/-- exponential_topography (topography.py lines 33-59). -/
def exponential_topography (shape : ℕ × ℕ) (self_coupling decay : ℝ) : Mat :=
  (List.range (shape.1 * shape.2)).foldl
    (expColumn shape.1 shape.2 self_coupling decay)
    (zerosMat (shape.1 * shape.2))

/-- One write of the top-row loop of fast_exponential_topography
(topography.py lines 75-80): result[0, row * cols + col] =
self_coupling * exp(-sqrt(row^2 + col^2) * decay). -/
def fastTopWrite (cols : ℕ) (self_coupling decay : ℝ) (row : ℕ)
    (result : Mat) (col : ℕ) : Mat :=
  mset result 0 (row * cols + col)
    (self_coupling * Real.exp (-(Real.sqrt ((row : ℝ) ^ 2 + (col : ℝ) ^ 2)) * decay))

/-- Loop over col in range(0, cols) of the top-row phase. -/
def fastTopRowStep (cols : ℕ) (self_coupling decay : ℝ)
    (result : Mat) (row : ℕ) : Mat :=
  (List.range cols).foldl (fastTopWrite cols self_coupling decay row) result

/-- Top-row phase of fast_exponential_topography: generate row 0 on the
zero matrix. -/
def fastTopRow (shape : ℕ × ℕ) (self_coupling decay : ℝ) : Mat :=
  (List.range shape.1).foldl (fastTopRowStep shape.2 self_coupling decay)
    (zerosMat (shape.1 * shape.2))

/-- Slice assignment result[i, i:] = result[0, 0:-i] of
fast_exponential_topography (topography.py line 84): row i receives, at the
columns from i to size - 1, the first size - i entries of row 0; everything
else is unchanged. The right hand side reads row 0, which rows 1.. never
overwrite. -/
def sliceStep (size : ℕ) (result : Mat) (i : ℕ) : Mat :=
  { result with entry := fun a b =>
      if a = i ∧ i ≤ b ∧ b < size then result.entry 0 (b - i) else result.entry a b }

/-- Upper-triangular phase of fast_exponential_topography: the loop
for i in range(1, size) of slice assignments. -/
def fastUpper (shape : ℕ × ℕ) (self_coupling decay : ℝ) : Mat :=
  (List.range' 1 (shape.1 * shape.2 - 1)).foldl (sliceStep (shape.1 * shape.2))
    (fastTopRow shape self_coupling decay)

/-- fast_exponential_topography (topography.py lines 61-87): top row, then
shifted copies into the upper triangle, then the symmetrisation
np.maximum(result, result.transpose()). -/
def fast_exponential_topography (shape : ℕ × ℕ) (self_coupling decay : ℝ) : Mat :=
  let result := fastUpper shape self_coupling decay
  { result with entry := fun a b => max (result.entry a b) (result.entry b a) }

/-- One write of stratified_topography (topography.py lines 107-111):
result[i, j] = coupling_multiplier *
exp(-distance * distance_decay - average * coupling_decay) with
average = (i + j) * 0.5 and distance = abs(i - j). -/
def stratWrite (coupling_multiplier distance_decay coupling_decay : ℝ) (i : ℕ)
    (result : Mat) (j : ℕ) : Mat :=
  mset result i j (coupling_multiplier *
    Real.exp (-((((i : ℤ) - (j : ℤ)).natAbs : ℝ)) * distance_decay -
      (((i : ℝ) + (j : ℝ)) * 0.5) * coupling_decay))

/-- Loop over j in range(size) of stratified_topography. -/
def stratRow (coupling_multiplier distance_decay coupling_decay : ℝ) (size : ℕ)
    (result : Mat) (i : ℕ) : Mat :=
  (List.range size).foldl (stratWrite coupling_multiplier distance_decay coupling_decay i) result

/-- stratified_topography (topography.py lines 89-113). -/
def stratified_topography (shape : ℕ × ℕ)
    (coupling_multiplier distance_decay coupling_decay : ℝ) : Mat :=
  (List.range (shape.1 * shape.2)).foldl
    (stratRow coupling_multiplier distance_decay coupling_decay (shape.1 * shape.2))
    (zerosMat (shape.1 * shape.2))

/-- Grid adjacency of two flat row-major indices: the row indices and the
column indices each differ by at most one. Together with both indices being
in range and distinct this is exactly the possibility of reaching one from
the other by one of the 8 nonzero in-bounds offsets of the source loop. -/
def gridAdjacent (cols : ℕ) (a b : ℕ) : Prop :=
  ((a / cols : ℕ) - (b / cols : ℕ) : ℤ).natAbs ≤ 1 ∧
  ((a % cols : ℕ) - (b % cols : ℕ) : ℤ).natAbs ≤ 1

instance (cols a b : ℕ) : Decidable (gridAdjacent cols a b) :=
  inferInstanceAs (Decidable (_ ∧ _))

/-- Closed form of the coupling that exponential_topography stores at
result[src, i]: the exponential of minus the euclidean grid distance between
the two cells times the decay, scaled by self_coupling. -/
def expCoupling (cols : ℕ) (self_coupling decay : ℝ) (src i : ℕ) : ℝ :=
  self_coupling * Real.exp (-(Real.sqrt
    (((((src / cols : ℕ) : ℤ) - ((i / cols : ℕ) : ℤ)) : ℝ) ^ 2 +
      ((((src % cols : ℕ) : ℤ) - ((i % cols : ℕ) : ℤ)) : ℝ) ^ 2)) * decay)

/-- Closed form of the value the top-row loop of
fast_exponential_topography stores at result[0, src]: the coupling for the
offset (src / cols, src % cols) from the origin. -/
def fastRowValue (cols : ℕ) (self_coupling decay : ℝ) (src : ℕ) : ℝ :=
  self_coupling * Real.exp (-(Real.sqrt
    (((src / cols : ℕ) : ℝ) ^ 2 + ((src % cols : ℕ) : ℝ) ^ 2)) * decay)

/-- Closed form of the value stratified_topography stores at
result[i, j]. -/
def stratCoupling (coupling_multiplier distance_decay coupling_decay : ℝ) (i j : ℕ) : ℝ :=
  coupling_multiplier *
    Real.exp (-((((i : ℤ) - (j : ℤ)).natAbs : ℝ)) * distance_decay -
      (((i : ℝ) + (j : ℝ)) * 0.5) * coupling_decay)

/-- State of SEIR_Model (SEIR_model.py lines 4-49). The compartment arrays
are flat row-major vectors over the n grid cells. The field named n in the
source, the population array the caller passed to the constructor, is named
pop here because n is the cell count; scale is the precomputed 1.0 / N. -/
structure SEIR_Model (n : ℕ) where
  beta : ℝ
  sigma : ℝ
  gamma : ℝ
  s : Fin n → ℝ
  e : Fin n → ℝ
  i : Fin n → ℝ
  r : Fin n → ℝ
  pop : Fin n → ℝ
  scale : Fin n → ℝ

/-- Constructor of SEIR_Model (SEIR_model.py lines 28-49): all cells
susceptible, s a copy of the populations array, the other compartments
zero-filled, scale = 1.0 / populations elementwise. -/
def SEIR_Model.init {n : ℕ} (populations : Fin n → ℝ) (beta sigma gamma : ℝ) :
    SEIR_Model n :=
  { beta := beta, sigma := sigma, gamma := gamma,
    s := populations, e := fun _ => 0, i := fun _ => 0, r := fun _ => 0,
    pop := populations, scale := fun k => 1 / populations k }

/-- SEIR_Model.infect (SEIR_model.py lines 55-60): self.s[cell] -= infection
then self.i[cell] += infection, with no bound check of any kind. -/
def SEIR_Model.infect {n : ℕ} (m : SEIR_Model n) (cell : Fin n) (infection : ℝ) :
    SEIR_Model n :=
  let m1 := { m with s := fun j => if j = cell then m.s j - infection else m.s j }
  { m1 with i := fun j => if j = cell then m1.i j + infection else m1.i j }

/-- Local array infectious = self.beta * dt * self.scale * self.i of
SEIR_Model.timestep (SEIR_model.py line 78). -/
def SEIR_Model.infectious {n : ℕ} (m : SEIR_Model n) (dt : ℝ) : Fin n → ℝ :=
  fun k => m.beta * dt * m.scale k * m.i k

/-- Local array exposure = infectious.dot(topography) of SEIR_Model.timestep
(SEIR_model.py lines 79-81): the flattened row vector times the matrix,
reshaped back to the grid; entry j is the sum over source cells k of
infectious[k] * topography[k, j]. -/
def SEIR_Model.exposure {n : ℕ} (m : SEIR_Model n) (dt : ℝ)
    (topography : ℕ → ℕ → ℝ) : Fin n → ℝ :=
  fun j => ∑ k, m.infectious dt k * topography k j

/-- Local array newly_exposed = exposure * self.s (SEIR_model.py line 82). -/
def SEIR_Model.newly_exposed {n : ℕ} (m : SEIR_Model n) (dt : ℝ)
    (topography : ℕ → ℕ → ℝ) : Fin n → ℝ :=
  fun j => m.exposure dt topography j * m.s j

/-- Local array newly_infected = self.sigma * dt * self.e
(SEIR_model.py line 83). -/
def SEIR_Model.newly_infected {n : ℕ} (m : SEIR_Model n) (dt : ℝ) : Fin n → ℝ :=
  fun j => m.sigma * dt * m.e j

/-- Local array newly_resistant = self.gamma * dt * self.i
(SEIR_model.py line 84). -/
def SEIR_Model.newly_resistant {n : ℕ} (m : SEIR_Model n) (dt : ℝ) : Fin n → ℝ :=
  fun j => m.gamma * dt * m.i j

/-- Body of SEIR_Model.timestep after the shape assertion
(SEIR_model.py lines 78-89): the five flow arrays are computed from the
incoming state m, then the compartments are written one at a time in source
order, each update reading the current intermediate state. -/
def SEIR_Model.timestepCore {n : ℕ} (m : SEIR_Model n) (dt : ℝ)
    (topography : ℕ → ℕ → ℝ) : SEIR_Model n :=
  let m1 := { m with s := fun j => m.s j - m.newly_exposed dt topography j }
  let m2 := { m1 with e := fun j => m1.e j + m.newly_exposed dt topography j - m.newly_infected dt j }
  let m3 := { m2 with i := fun j => m2.i j + m.newly_infected dt j - m.newly_resistant dt j }
  { m3 with r := fun j => m3.r j + m.newly_resistant dt j }

/-- SEIR_Model.timestep (SEIR_model.py lines 62-89) with the assertion
assert topography.shape == (size, size) modelled as a guard: a shape
mismatch is a fatal contract failure, yielding none instead of a successor
state. -/
def SEIR_Model.timestep {n : ℕ} (m : SEIR_Model n) (dt : ℝ) (topography : Mat) :
    Option (SEIR_Model n) :=
  if topography.shape = (n, n) then some (m.timestepCore dt topography.entry) else none

/-- Simultaneous description of the SEIR update: every compartment written
in one step from flows evaluated on the pre-update state. -/
def SEIR_Model.timestepSimultaneous {n : ℕ} (m : SEIR_Model n) (dt : ℝ)
    (topography : ℕ → ℕ → ℝ) : SEIR_Model n :=
  { m with
    s := fun j => m.s j - m.newly_exposed dt topography j,
    e := fun j => m.e j + m.newly_exposed dt topography j - m.newly_infected dt j,
    i := fun j => m.i j + m.newly_infected dt j - m.newly_resistant dt j,
    r := fun j => m.r j + m.newly_resistant dt j }

/-- The SEIR update with the compartments written in the opposite order to
the source, to express that the write order is immaterial. -/
def SEIR_Model.timestepReversed {n : ℕ} (m : SEIR_Model n) (dt : ℝ)
    (topography : ℕ → ℕ → ℝ) : SEIR_Model n :=
  let m1 := { m with r := fun j => m.r j + m.newly_resistant dt j }
  let m2 := { m1 with i := fun j => m1.i j + m.newly_infected dt j - m.newly_resistant dt j }
  let m3 := { m2 with e := fun j => m2.e j + m.newly_exposed dt topography j - m.newly_infected dt j }
  { m3 with s := fun j => m3.s j - m.newly_exposed dt topography j }

/-- Total population currently held in the four SEIR compartments. -/
def SEIR_Model.total {n : ℕ} (m : SEIR_Model n) : ℝ :=
  (∑ j, m.s j) + (∑ j, m.e j) + (∑ j, m.i j) + (∑ j, m.r j)

/-- Iterated SEIR timesteps with a fixed dt and topography, as the driver
loops of the source perform them. -/
def SEIR_Model.steps {n : ℕ} (m : SEIR_Model n) (dt : ℝ)
    (topography : ℕ → ℕ → ℝ) : ℕ → SEIR_Model n
  | 0 => m
  | k + 1 => (m.steps dt topography k).timestepCore dt topography

/-- State of SEIRDS_Model (SEIRDS_model.py lines 4-56), with the additional
dead compartment d and the additional rates digamma and rho. -/
structure SEIRDS_Model (n : ℕ) where
  beta : ℝ
  sigma : ℝ
  gamma : ℝ
  digamma : ℝ
  rho : ℝ
  s : Fin n → ℝ
  e : Fin n → ℝ
  i : Fin n → ℝ
  r : Fin n → ℝ
  d : Fin n → ℝ
  pop : Fin n → ℝ
  scale : Fin n → ℝ

/-- Constructor of SEIRDS_Model (SEIRDS_model.py lines 29-56). -/
def SEIRDS_Model.init {n : ℕ} (populations : Fin n → ℝ)
    (beta sigma gamma digamma rho : ℝ) : SEIRDS_Model n :=
  { beta := beta, sigma := sigma, gamma := gamma, digamma := digamma, rho := rho,
    s := populations, e := fun _ => 0, i := fun _ => 0, r := fun _ => 0,
    d := fun _ => 0, pop := populations, scale := fun k => 1 / populations k }

/-- SEIRDS_Model.infect (SEIRDS_model.py lines 68-73). -/
def SEIRDS_Model.infect {n : ℕ} (m : SEIRDS_Model n) (cell : Fin n) (infection : ℝ) :
    SEIRDS_Model n :=
  let m1 := { m with s := fun j => if j = cell then m.s j - infection else m.s j }
  { m1 with i := fun j => if j = cell then m1.i j + infection else m1.i j }

/-- Local array infectious of SEIRDS_Model.timestep (SEIRDS_model.py
line 91). -/
def SEIRDS_Model.infectious {n : ℕ} (m : SEIRDS_Model n) (dt : ℝ) : Fin n → ℝ :=
  fun k => m.beta * dt * m.scale k * m.i k

/-- Local array exposure of SEIRDS_Model.timestep (SEIRDS_model.py lines
92-94). -/
def SEIRDS_Model.exposure {n : ℕ} (m : SEIRDS_Model n) (dt : ℝ)
    (topography : ℕ → ℕ → ℝ) : Fin n → ℝ :=
  fun j => ∑ k, m.infectious dt k * topography k j

/-- Local array newly_exposed of SEIRDS_Model.timestep (SEIRDS_model.py
line 95). -/
def SEIRDS_Model.newly_exposed {n : ℕ} (m : SEIRDS_Model n) (dt : ℝ)
    (topography : ℕ → ℕ → ℝ) : Fin n → ℝ :=
  fun j => m.exposure dt topography j * m.s j

/-- Local array newly_infected of SEIRDS_Model.timestep (SEIRDS_model.py
line 96). -/
def SEIRDS_Model.newly_infected {n : ℕ} (m : SEIRDS_Model n) (dt : ℝ) : Fin n → ℝ :=
  fun j => m.sigma * dt * m.e j

/-- Local array newly_resistant of SEIRDS_Model.timestep (SEIRDS_model.py
line 97). -/
def SEIRDS_Model.newly_resistant {n : ℕ} (m : SEIRDS_Model n) (dt : ℝ) : Fin n → ℝ :=
  fun j => m.gamma * dt * m.i j

/-- Local array newly_dead of SEIRDS_Model.timestep (SEIRDS_model.py
line 98). -/
def SEIRDS_Model.newly_dead {n : ℕ} (m : SEIRDS_Model n) (dt : ℝ) : Fin n → ℝ :=
  fun j => m.digamma * dt * m.i j

/-- Local array newly_susceptible of SEIRDS_Model.timestep (SEIRDS_model.py
line 99). -/
def SEIRDS_Model.newly_susceptible {n : ℕ} (m : SEIRDS_Model n) (dt : ℝ) : Fin n → ℝ :=
  fun j => m.rho * dt * m.r j

/-- Body of SEIRDS_Model.timestep after the shape assertion
(SEIRDS_model.py lines 91-105): the flow arrays are computed from the
incoming state m, then the compartments are written in source order. -/
def SEIRDS_Model.timestepCore {n : ℕ} (m : SEIRDS_Model n) (dt : ℝ)
    (topography : ℕ → ℕ → ℝ) : SEIRDS_Model n :=
  let m1 := { m with s := fun j => m.s j + (m.newly_susceptible dt j - m.newly_exposed dt topography j) }
  let m2 := { m1 with e := fun j => m1.e j + (m.newly_exposed dt topography j - m.newly_infected dt j) }
  let m3 := { m2 with i := fun j => m2.i j + (m.newly_infected dt j - m.newly_resistant dt j - m.newly_dead dt j) }
  let m4 := { m3 with r := fun j => m3.r j + (m.newly_resistant dt j - m.newly_susceptible dt j) }
  { m4 with d := fun j => m4.d j + m.newly_dead dt j }

/-- SEIRDS_Model.timestep (SEIRDS_model.py lines 75-105) with the shape
assertion modelled as a guard. -/
def SEIRDS_Model.timestep {n : ℕ} (m : SEIRDS_Model n) (dt : ℝ) (topography : Mat) :
    Option (SEIRDS_Model n) :=
  if topography.shape = (n, n) then some (m.timestepCore dt topography.entry) else none

/-- Simultaneous description of the SEIRDS update. -/
def SEIRDS_Model.timestepSimultaneous {n : ℕ} (m : SEIRDS_Model n) (dt : ℝ)
    (topography : ℕ → ℕ → ℝ) : SEIRDS_Model n :=
  { m with
    s := fun j => m.s j + (m.newly_susceptible dt j - m.newly_exposed dt topography j),
    e := fun j => m.e j + (m.newly_exposed dt topography j - m.newly_infected dt j),
    i := fun j => m.i j + (m.newly_infected dt j - m.newly_resistant dt j - m.newly_dead dt j),
    r := fun j => m.r j + (m.newly_resistant dt j - m.newly_susceptible dt j),
    d := fun j => m.d j + m.newly_dead dt j }

/-- The SEIRDS update with the compartments written in the opposite order. -/
def SEIRDS_Model.timestepReversed {n : ℕ} (m : SEIRDS_Model n) (dt : ℝ)
    (topography : ℕ → ℕ → ℝ) : SEIRDS_Model n :=
  let m1 := { m with d := fun j => m.d j + m.newly_dead dt j }
  let m2 := { m1 with r := fun j => m1.r j + (m.newly_resistant dt j - m.newly_susceptible dt j) }
  let m3 := { m2 with i := fun j => m2.i j + (m.newly_infected dt j - m.newly_resistant dt j - m.newly_dead dt j) }
  let m4 := { m3 with e := fun j => m3.e j + (m.newly_exposed dt topography j - m.newly_infected dt j) }
  { m4 with s := fun j => m4.s j + (m.newly_susceptible dt j - m.newly_exposed dt topography j) }

/-- Total population currently held in the five SEIRDS compartments. -/
def SEIRDS_Model.total {n : ℕ} (m : SEIRDS_Model n) : ℝ :=
  (∑ j, m.s j) + (∑ j, m.e j) + (∑ j, m.i j) + (∑ j, m.r j) + (∑ j, m.d j)

/-- Iterated SEIRDS timesteps with a fixed dt and topography. -/
def SEIRDS_Model.steps {n : ℕ} (m : SEIRDS_Model n) (dt : ℝ)
    (topography : ℕ → ℕ → ℝ) : ℕ → SEIRDS_Model n
  | 0 => m
  | k + 1 => (m.steps dt topography k).timestepCore dt topography

/-- One call a driver can make on a model: seed an infection or advance one
timestep. The same call list can be replayed against an SEIR and an SEIRDS
model. -/
inductive ModelOp (n : ℕ) where
  | infect (cell : Fin n) (x : ℝ)
  | step (dt : ℝ) (topography : ℕ → ℕ → ℝ)

/-- Replay of a call sequence against an SEIR model. -/
def SEIR_Model.run {n : ℕ} (m : SEIR_Model n) : List (ModelOp n) → SEIR_Model n
  | [] => m
  | ModelOp.infect cell x :: rest => (m.infect cell x).run rest
  | ModelOp.step dt topography :: rest => (m.timestepCore dt topography).run rest

/-- Replay of a call sequence against an SEIRDS model. -/
def SEIRDS_Model.run {n : ℕ} (m : SEIRDS_Model n) : List (ModelOp n) → SEIRDS_Model n
  | [] => m
  | ModelOp.infect cell x :: rest => (m.infect cell x).run rest
  | ModelOp.step dt topography :: rest => (m.timestepCore dt topography).run rest

/-- Pointwise correspondence between an SEIR state and an SEIRDS state whose
death and immunity-loss rates are zero: the four shared compartments, the
rates and the scale agree, and the dead compartment is identically zero. -/
def SEIRDS_matches {n : ℕ} (a : SEIR_Model n) (b : SEIRDS_Model n) : Prop :=
  a.beta = b.beta ∧ a.sigma = b.sigma ∧ a.gamma = b.gamma ∧
  b.digamma = 0 ∧ b.rho = 0 ∧
  a.s = b.s ∧ a.e = b.e ∧ a.i = b.i ∧ a.r = b.r ∧
  b.d = (fun _ => 0) ∧ a.scale = b.scale

/-! Generic lemmas about folded element writes. -/

theorem mset_entry_self (M : Mat) (r c : ℕ) (v : ℝ) : (mset M r c v).entry r c = v := by
  simp [mset]

theorem mset_entry_ne (M : Mat) (r c : ℕ) (v : ℝ) (a b : ℕ) (h : a ≠ r ∨ b ≠ c) :
    (mset M r c v).entry a b = M.entry a b := by
  simp only [mset]
  rcases h with h | h <;> simp [h]

theorem mset_shape (M : Mat) (r c : ℕ) (v : ℝ) : (mset M r c v).shape = M.shape := rfl

theorem foldl_entry_preserve {α : Type} (f : Mat → α → Mat) (l : List α) (M : Mat) (a b : ℕ)
    (h : ∀ x ∈ l, ∀ N : Mat, (f N x).entry a b = N.entry a b) :
    (l.foldl f M).entry a b = M.entry a b := by
  induction l generalizing M with
  | nil => rfl
  | cons y t ih =>
    rw [List.foldl_cons, ih (f M y) fun x hx N => h x (List.mem_cons_of_mem y hx) N,
      h y (List.mem_cons_self y t) M]

theorem foldl_entry_write {α : Type} (f : Mat → α → Mat) (l : List α) (M : Mat) (a b : ℕ)
    (x : α) (v : ℝ) (hmem : x ∈ l)
    (hwrite : ∀ N : Mat, (f N x).entry a b = v)
    (hothers : ∀ y ∈ l, y ≠ x → ∀ N : Mat, (f N y).entry a b = N.entry a b) :
    (l.foldl f M).entry a b = v := by
  induction l generalizing M with
  | nil => cases hmem
  | cons y t ih =>
    rw [List.foldl_cons]
    by_cases hx : x ∈ t
    · exact ih (f M y) hx fun z hz hne N => hothers z (List.mem_cons_of_mem y hz) hne N
    · have hyx : y = x := by
        rcases List.mem_cons.mp hmem with h | h
        · exact h.symm
        · exact absurd h hx
      subst hyx
      rw [foldl_entry_preserve f t (f M y) a b fun z hz N =>
        hothers z (List.mem_cons_of_mem y hz) (fun hzy => hx (hzy ▸ hz)) N]
      exact hwrite M

theorem foldl_shape {α : Type} (f : Mat → α → Mat) (l : List α) (M : Mat)
    (h : ∀ (N : Mat) (x : α), (f N x).shape = N.shape) :
    (l.foldl f M).shape = M.shape := by
  induction l generalizing M with
  | nil => rfl
  | cons y t ih => rw [List.foldl_cons, ih (f M y), h M y]

/-! Arithmetic of the flat row-major index. -/

theorem intRange_mem (n : ℕ) (x : ℤ) : x ∈ intRange n ↔ -(n : ℤ) ≤ x ∧ x < n := by
  unfold intRange
  rw [List.mem_map]
  constructor
  · rintro ⟨k, hk, rfl⟩
    have hk2 := List.mem_range.mp hk
    omega
  · intro hx
    exact ⟨(x + n).toNat, List.mem_range.mpr (by omega), by omega⟩

theorem flat_lt (rows cols R C : ℕ) (hR : R < rows) (hC : C < cols) :
    R * cols + C < rows * cols :=
  calc R * cols + C < R * cols + cols := by omega
  _ = (R + 1) * cols := by ring
  _ ≤ rows * cols := Nat.mul_le_mul_right cols hR

theorem flat_decomp_unique (R C src cols : ℕ) (hC : C < cols) (h : R * cols + C = src) :
    R = src / cols ∧ C = src % cols := by
  have hcols : 0 < cols := Nat.pos_of_ne_zero fun h0 => by omega
  subst h
  constructor
  · rw [Nat.add_comm, Nat.add_mul_div_right C R hcols, Nat.div_eq_of_lt hC, Nat.zero_add]
  · rw [Nat.add_comm, Nat.add_mul_mod_self_right, Nat.mod_eq_of_lt hC]

theorem cols_pos_of_flat (i rows cols : ℕ) (h : i < rows * cols) : 0 < cols := by
  rcases Nat.eq_zero_or_pos cols with h0 | h0
  · subst h0; omega
  · exact h0

theorem rows_pos_of_flat (i rows cols : ℕ) (h : i < rows * cols) : 0 < rows := by
  rcases Nat.eq_zero_or_pos rows with h0 | h0
  · subst h0; simp at h
  · exact h0

theorem flat_div_lt (i rows cols : ℕ) (h : i < rows * cols) : i / cols < rows :=
  (Nat.div_lt_iff_lt_mul (cols_pos_of_flat i rows cols h)).mpr h

theorem flat_recompose (i cols : ℕ) : i / cols * cols + i % cols = i := by
  rw [Nat.mul_comm]
  exact Nat.div_add_mod i cols

theorem int_toNat_flat (cols : ℕ) (R C : ℤ) (hR0 : 0 ≤ R) (hC0 : 0 ≤ C) :
    (R * cols + C).toNat = R.toNat * cols + C.toNat := by
  obtain ⟨a, rfl⟩ := Int.eq_ofNat_of_zero_le hR0
  obtain ⟨c, rfl⟩ := Int.eq_ofNat_of_zero_le hC0
  have h : ((a : ℤ)) * cols + (c : ℤ) = ((a * cols + c : ℕ) : ℤ) := by push_cast; ring
  rw [h, Int.toNat_natCast, Int.toNat_natCast, Int.toNat_natCast]

/-- Target identification for a guarded in-bounds write: the flat index of an
in-bounds integer coordinate pair equals a given flat index src below
rows * cols exactly when the coordinates are the row-major coordinates of
src. -/
theorem flat_target_eq_iff (rows cols src : ℕ)
    (R C : ℤ) (hR0 : 0 ≤ R) (hRr : R < rows) (hC0 : 0 ≤ C) (hCc : C < cols) :
    (R * cols + C).toNat = src ↔ R = (src / cols : ℕ) ∧ C = (src % cols : ℕ) := by
  rw [int_toNat_flat cols R C hR0 hC0]
  constructor
  · intro h
    have hCc2 : C.toNat < cols := by omega
    have := flat_decomp_unique R.toNat C.toNat src cols hCc2 h
    omega
  · rintro ⟨rfl, rfl⟩
    rw [Int.toNat_natCast, Int.toNat_natCast]
    exact flat_recompose src cols

theorem flat_target_lt (rows cols : ℕ) (R C : ℤ) (hR0 : 0 ≤ R) (hRr : R < rows)
    (hC0 : 0 ≤ C) (hCc : C < cols) :
    (R * cols + C).toNat < rows * cols := by
  rw [int_toNat_flat cols R C hR0 hC0]
  exact flat_lt rows cols R.toNat C.toNat (by omega) (by omega)

/-! Characterisation of nearest_neighbour_topography. Each outer iteration i
writes only column i: the diagonal entry once and each in-bounds nonzero
offset target once, and distinct offsets hit distinct rows of the column. -/

theorem nnInnermost_preserve (rows cols : ℕ) (nc : ℝ) (i : ℕ) (ro : ℤ) (N : Mat) (co : ℤ)
    (a b : ℕ)
    (h : b ≠ i ∨
      (((ro ≠ 0 ∨ co ≠ 0) ∧
        0 ≤ ((i / cols : ℕ) : ℤ) + ro ∧ ((i / cols : ℕ) : ℤ) + ro < (rows : ℤ) ∧
        0 ≤ ((i % cols : ℕ) : ℤ) + co ∧ ((i % cols : ℕ) : ℤ) + co < (cols : ℤ)) →
        ((((i / cols : ℕ) : ℤ) + ro) * cols + (((i % cols : ℕ) : ℤ) + co)).toNat ≠ a)) :
    (nnInnermost rows cols nc i ro N co).entry a b = N.entry a b := by
  unfold nnInnermost
  split
  · next hg =>
    refine mset_entry_ne _ _ _ _ _ _ ?_
    rcases h with h | h
    · exact Or.inr h
    · exact Or.inl fun he => h hg he.symm
  · rfl

theorem nnColumn_preserve (rows cols : ℕ) (sc nc : ℝ) (i : ℕ) (N : Mat) (a b : ℕ)
    (hb : b ≠ i) :
    (nnColumn rows cols sc nc N i).entry a b = N.entry a b := by
  unfold nnColumn nnMiddle
  rw [foldl_entry_preserve _ _ _ a b fun ro _ N1 =>
    foldl_entry_preserve _ _ _ a b fun co _ N2 =>
      nnInnermost_preserve rows cols nc i ro N2 co a b (Or.inl hb)]
  exact mset_entry_ne _ _ _ _ _ _ (Or.inr hb)

theorem nnColumn_diag (rows cols : ℕ) (sc nc : ℝ) (i : ℕ) (N : Mat) :
    (nnColumn rows cols sc nc N i).entry i i = sc := by
  unfold nnColumn nnMiddle
  rw [foldl_entry_preserve _ _ _ i i ?_]
  · exact mset_entry_self _ _ _ _
  · intro ro _ N1
    refine foldl_entry_preserve _ _ _ i i fun co _ N2 => ?_
    refine nnInnermost_preserve rows cols nc i ro N2 co i i (Or.inr fun hg htgt => ?_)
    obtain ⟨hnz, h1, h2, h3, h4⟩ := hg
    obtain ⟨hR, hC⟩ := (flat_target_eq_iff rows cols i _ _ h1 h2 h3 h4).mp htgt
    have hro : ro = 0 := by omega
    have hco : co = 0 := by omega
    exact hnz.elim (fun hh => hh hro) (fun hh => hh hco)

theorem mem_pm_one (x : ℤ) (h : x ∈ ([-1, 0, 1] : List ℤ)) : -1 ≤ x ∧ x ≤ 1 := by
  simp only [List.mem_cons, List.mem_singleton, List.not_mem_nil, or_false] at h
  rcases h with h | h | h <;> omega

theorem pm_one_mem (x : ℤ) (h : -1 ≤ x ∧ x ≤ 1) : x ∈ ([-1, 0, 1] : List ℤ) := by
  simp only [List.mem_cons, List.mem_singleton, List.not_mem_nil, or_false]
  omega

theorem nnColumn_write (rows cols : ℕ) (sc nc : ℝ) (i src : ℕ)
    (hi : i < rows * cols) (hsrc : src < rows * cols) (hne : src ≠ i)
    (hadj : gridAdjacent cols src i) (N : Mat) :
    (nnColumn rows cols sc nc N i).entry src i = nc := by
  obtain ⟨hrow, hcol⟩ := hadj
  have hdivs := flat_div_lt src rows cols hsrc
  have hmods := Nat.mod_lt src (cols_pos_of_flat i rows cols hi)
  have hnn1 : (0 : ℤ) ≤ ((src / cols : ℕ) : ℤ) := Int.natCast_nonneg _
  have hnn2 : (0 : ℤ) ≤ ((i / cols : ℕ) : ℤ) := Int.natCast_nonneg _
  have hnn3 : (0 : ℤ) ≤ ((src % cols : ℕ) : ℤ) := Int.natCast_nonneg _
  have hnn4 : (0 : ℤ) ≤ ((i % cols : ℕ) : ℤ) := Int.natCast_nonneg _
  have hdivs2 : ((src / cols : ℕ) : ℤ) < (rows : ℤ) := by exact_mod_cast hdivs
  have hmods2 : ((src % cols : ℕ) : ℤ) < (cols : ℤ) := by exact_mod_cast hmods
  unfold nnColumn nnMiddle
  refine foldl_entry_write _ _ _ src i
    (((src / cols : ℕ) : ℤ) - ((i / cols : ℕ) : ℤ)) nc (pm_one_mem _ (by omega)) ?_ ?_
  · intro N1
    refine foldl_entry_write _ _ _ src i
      (((src % cols : ℕ) : ℤ) - ((i % cols : ℕ) : ℤ)) nc (pm_one_mem _ (by omega)) ?_ ?_
    · intro N2
      unfold nnInnermost
      rw [if_pos ?hg]
      case hg =>
        refine ⟨?_, by omega, by omega, by omega, by omega⟩
        by_cases hro : ((src / cols : ℕ) : ℤ) - ((i / cols : ℕ) : ℤ) = 0
        · refine Or.inr fun hco => hne ?_
          have e1 : src / cols = i / cols := by omega
          have e2 : src % cols = i % cols := by omega
          rw [← flat_recompose src cols, ← flat_recompose i cols, e1, e2]
        · exact Or.inl hro
      have hE : (((i / cols : ℕ) : ℤ) + (((src / cols : ℕ) : ℤ) - ((i / cols : ℕ) : ℤ))) * cols +
          (((i % cols : ℕ) : ℤ) + (((src % cols : ℕ) : ℤ) - ((i % cols : ℕ) : ℤ))) = (src : ℤ) :=
        calc (((i / cols : ℕ) : ℤ) + (((src / cols : ℕ) : ℤ) - ((i / cols : ℕ) : ℤ))) * cols +
            (((i % cols : ℕ) : ℤ) + (((src % cols : ℕ) : ℤ) - ((i % cols : ℕ) : ℤ)))
            = ((src / cols : ℕ) : ℤ) * cols + ((src % cols : ℕ) : ℤ) := by ring
        _ = ((src / cols * cols + src % cols : ℕ) : ℤ) := by push_cast; ring
        _ = (src : ℤ) := by rw [flat_recompose]
      have hEt : ((((i / cols : ℕ) : ℤ) + (((src / cols : ℕ) : ℤ) - ((i / cols : ℕ) : ℤ))) * cols +
          (((i % cols : ℕ) : ℤ) + (((src % cols : ℕ) : ℤ) - ((i % cols : ℕ) : ℤ)))).toNat = src := by
        rw [hE, Int.toNat_natCast]
      rw [hEt]
      exact mset_entry_self _ _ _ _
    · intro co hco hne2 N2
      refine nnInnermost_preserve rows cols nc i _ N2 co src i (Or.inr fun hg htgt => ?_)
      obtain ⟨hnz, h1, h2, h3, h4⟩ := hg
      obtain ⟨hR, hC⟩ := (flat_target_eq_iff rows cols src _ _ h1 h2 h3 h4).mp htgt
      exact hne2 (by omega)
  · intro ro hro hne2 N1
    refine foldl_entry_preserve _ _ _ src i fun co hco N2 => ?_
    refine nnInnermost_preserve rows cols nc i ro N2 co src i (Or.inr fun hg htgt => ?_)
    obtain ⟨hnz, h1, h2, h3, h4⟩ := hg
    obtain ⟨hR, hC⟩ := (flat_target_eq_iff rows cols src _ _ h1 h2 h3 h4).mp htgt
    exact hne2 (by omega)

theorem nnColumn_miss (rows cols : ℕ) (sc nc : ℝ) (i src : ℕ)
    (hne : src ≠ i)
    (hmiss : ¬(src < rows * cols ∧ gridAdjacent cols src i)) (N : Mat) :
    (nnColumn rows cols sc nc N i).entry src i = N.entry src i := by
  unfold nnColumn nnMiddle
  rw [foldl_entry_preserve _ _ _ src i ?_]
  · exact mset_entry_ne _ _ _ _ _ _ (Or.inl hne)
  · intro ro hro N1
    refine foldl_entry_preserve _ _ _ src i fun co hco N2 => ?_
    refine nnInnermost_preserve rows cols nc i ro N2 co src i (Or.inr fun hg htgt => ?_)
    obtain ⟨hnz, h1, h2, h3, h4⟩ := hg
    obtain ⟨hR, hC⟩ := (flat_target_eq_iff rows cols src _ _ h1 h2 h3 h4).mp htgt
    obtain ⟨hro1, hro2⟩ := mem_pm_one ro hro
    obtain ⟨hco1, hco2⟩ := mem_pm_one co hco
    refine hmiss ⟨?_, ?_, ?_⟩
    · rw [← htgt]
      exact flat_target_lt rows cols _ _ h1 h2 h3 h4
    · omega
    · omega

theorem nnColumn_shape (rows cols : ℕ) (sc nc : ℝ) (N : Mat) (i : ℕ) :
    (nnColumn rows cols sc nc N i).shape = N.shape := by
  unfold nnColumn nnMiddle
  rw [foldl_shape _ _ _ fun N1 ro => foldl_shape _ _ _ fun N2 co => ?_]
  · exact mset_shape _ _ _ _
  · unfold nnInnermost
    split
    · exact mset_shape _ _ _ _
    · rfl

theorem nn_shape (rows cols : ℕ) (sc nc : ℝ) :
    (nearest_neighbour_topography (rows, cols) sc nc).shape = (rows * cols, rows * cols) := by
  show ((List.range (rows * cols)).foldl (nnColumn rows cols sc nc)
    (zerosMat (rows * cols))).shape = (rows * cols, rows * cols)
  rw [foldl_shape _ _ _ fun N j => nnColumn_shape rows cols sc nc N j]
  rfl

theorem nn_entry_diag (rows cols : ℕ) (sc nc : ℝ) (i : ℕ) (hi : i < rows * cols) :
    (nearest_neighbour_topography (rows, cols) sc nc).entry i i = sc := by
  show ((List.range (rows * cols)).foldl (nnColumn rows cols sc nc)
    (zerosMat (rows * cols))).entry i i = sc
  refine foldl_entry_write _ _ _ i i i sc (List.mem_range.mpr hi)
    (fun N => nnColumn_diag rows cols sc nc i N)
    (fun j _ hji N => nnColumn_preserve rows cols sc nc j N i i (Ne.symm hji))

theorem nn_entry_neighbour (rows cols : ℕ) (sc nc : ℝ) (src i : ℕ)
    (hi : i < rows * cols) (hsrc : src < rows * cols) (hne : src ≠ i)
    (hadj : gridAdjacent cols src i) :
    (nearest_neighbour_topography (rows, cols) sc nc).entry src i = nc := by
  show ((List.range (rows * cols)).foldl (nnColumn rows cols sc nc)
    (zerosMat (rows * cols))).entry src i = nc
  refine foldl_entry_write _ _ _ src i i nc (List.mem_range.mpr hi)
    (fun N => nnColumn_write rows cols sc nc i src hi hsrc hne hadj N)
    (fun j _ hji N => nnColumn_preserve rows cols sc nc j N src i (Ne.symm hji))

theorem nn_entry_zero (rows cols : ℕ) (sc nc : ℝ) (src i : ℕ)
    (hdiag : ¬(i < rows * cols ∧ src = i))
    (hnbr : ¬(i < rows * cols ∧ src < rows * cols ∧ src ≠ i ∧ gridAdjacent cols src i)) :
    (nearest_neighbour_topography (rows, cols) sc nc).entry src i = 0 := by
  show ((List.range (rows * cols)).foldl (nnColumn rows cols sc nc)
    (zerosMat (rows * cols))).entry src i = 0
  by_cases hi : i < rows * cols
  · have hne : src ≠ i := fun he => hdiag ⟨hi, he⟩
    rw [foldl_entry_preserve _ _ _ src i ?_]
    · rfl
    · intro j hj N
      by_cases hji : j = i
      · subst hji
        exact nnColumn_miss rows cols sc nc j src hne
          (fun hh => hnbr ⟨hi, hh.1, hne, hh.2⟩) N
      · exact nnColumn_preserve rows cols sc nc j N src i (Ne.symm hji)
  · rw [foldl_entry_preserve _ _ _ src i fun j hj N =>
      nnColumn_preserve rows cols sc nc j N src i
        (fun he => hi (he ▸ List.mem_range.mp hj))]
    rfl

/-! Characterisation of exponential_topography. Each outer iteration i
writes only column i; for source cells inside the grid every offset pair is
traversed, so every in-range pair (src, i) is written exactly once, with the
coupling determined by the euclidean distance of the grid coordinates. -/

theorem expInnermost_preserve (rows cols : ℕ) (sc d : ℝ) (i : ℕ) (ro : ℤ) (N : Mat) (co : ℤ)
    (a b : ℕ)
    (h : b ≠ i ∨
      ((0 ≤ ((i / cols : ℕ) : ℤ) + ro ∧ ((i / cols : ℕ) : ℤ) + ro < (rows : ℤ) ∧
        0 ≤ ((i % cols : ℕ) : ℤ) + co ∧ ((i % cols : ℕ) : ℤ) + co < (cols : ℤ)) →
        ((((i / cols : ℕ) : ℤ) + ro) * cols + (((i % cols : ℕ) : ℤ) + co)).toNat ≠ a)) :
    (expInnermost rows cols sc d i ro N co).entry a b = N.entry a b := by
  unfold expInnermost
  split
  · next hg =>
    refine mset_entry_ne _ _ _ _ _ _ ?_
    rcases h with h | h
    · exact Or.inr h
    · exact Or.inl fun he => h hg he.symm
  · rfl

theorem expColumn_preserve (rows cols : ℕ) (sc d : ℝ) (i : ℕ) (N : Mat) (a b : ℕ)
    (hb : b ≠ i) :
    (expColumn rows cols sc d N i).entry a b = N.entry a b := by
  unfold expColumn expMiddle
  exact foldl_entry_preserve _ _ _ a b fun ro _ N1 =>
    foldl_entry_preserve _ _ _ a b fun co _ N2 =>
      expInnermost_preserve rows cols sc d i ro N2 co a b (Or.inl hb)

theorem expColumn_preserve_big (rows cols : ℕ) (sc d : ℝ) (i src : ℕ)
    (hsrc : rows * cols ≤ src) (N : Mat) :
    (expColumn rows cols sc d N i).entry src i = N.entry src i := by
  unfold expColumn expMiddle
  refine foldl_entry_preserve _ _ _ src i fun ro _ N1 =>
    foldl_entry_preserve _ _ _ src i fun co _ N2 =>
      expInnermost_preserve rows cols sc d i ro N2 co src i (Or.inr fun hg htgt => ?_)
  obtain ⟨h1, h2, h3, h4⟩ := hg
  have := flat_target_lt rows cols _ _ h1 h2 h3 h4
  omega

theorem expColumn_write (rows cols : ℕ) (sc d : ℝ) (i src : ℕ)
    (hi : i < rows * cols) (hsrc : src < rows * cols) (N : Mat) :
    (expColumn rows cols sc d N i).entry src i = expCoupling cols sc d src i := by
  have hdivs := flat_div_lt src rows cols hsrc
  have hmods := Nat.mod_lt src (cols_pos_of_flat i rows cols hi)
  have hdivi := flat_div_lt i rows cols hi
  have hmodi := Nat.mod_lt i (cols_pos_of_flat i rows cols hi)
  have hnn1 : (0 : ℤ) ≤ ((src / cols : ℕ) : ℤ) := Int.natCast_nonneg _
  have hnn2 : (0 : ℤ) ≤ ((i / cols : ℕ) : ℤ) := Int.natCast_nonneg _
  have hnn3 : (0 : ℤ) ≤ ((src % cols : ℕ) : ℤ) := Int.natCast_nonneg _
  have hnn4 : (0 : ℤ) ≤ ((i % cols : ℕ) : ℤ) := Int.natCast_nonneg _
  have hdivs2 : ((src / cols : ℕ) : ℤ) < (rows : ℤ) := by exact_mod_cast hdivs
  have hmods2 : ((src % cols : ℕ) : ℤ) < (cols : ℤ) := by exact_mod_cast hmods
  have hdivi2 : ((i / cols : ℕ) : ℤ) < (rows : ℤ) := by exact_mod_cast hdivi
  have hmodi2 : ((i % cols : ℕ) : ℤ) < (cols : ℤ) := by exact_mod_cast hmodi
  unfold expColumn expMiddle
  refine foldl_entry_write _ _ _ src i
    (((src / cols : ℕ) : ℤ) - ((i / cols : ℕ) : ℤ)) (expCoupling cols sc d src i)
    (intRange_mem rows _ |>.mpr ⟨by omega, by omega⟩) ?_ ?_
  · intro N1
    refine foldl_entry_write _ _ _ src i
      (((src % cols : ℕ) : ℤ) - ((i % cols : ℕ) : ℤ)) (expCoupling cols sc d src i)
      (intRange_mem cols _ |>.mpr ⟨by omega, by omega⟩) ?_ ?_
    · intro N2
      unfold expInnermost
      rw [if_pos ⟨by omega, by omega, by omega, by omega⟩]
      have hE : (((i / cols : ℕ) : ℤ) + (((src / cols : ℕ) : ℤ) - ((i / cols : ℕ) : ℤ))) * cols +
          (((i % cols : ℕ) : ℤ) + (((src % cols : ℕ) : ℤ) - ((i % cols : ℕ) : ℤ))) = (src : ℤ) :=
        calc (((i / cols : ℕ) : ℤ) + (((src / cols : ℕ) : ℤ) - ((i / cols : ℕ) : ℤ))) * cols +
            (((i % cols : ℕ) : ℤ) + (((src % cols : ℕ) : ℤ) - ((i % cols : ℕ) : ℤ)))
            = ((src / cols : ℕ) : ℤ) * cols + ((src % cols : ℕ) : ℤ) := by ring
        _ = ((src / cols * cols + src % cols : ℕ) : ℤ) := by push_cast; ring
        _ = (src : ℤ) := by rw [flat_recompose]
      have hEt : ((((i / cols : ℕ) : ℤ) + (((src / cols : ℕ) : ℤ) - ((i / cols : ℕ) : ℤ))) * cols +
          (((i % cols : ℕ) : ℤ) + (((src % cols : ℕ) : ℤ) - ((i % cols : ℕ) : ℤ)))).toNat = src := by
        rw [hE, Int.toNat_natCast]
      rw [hEt, mset_entry_self]
      unfold expCoupling
      push_cast
      ring
    · intro co hco hne2 N2
      refine expInnermost_preserve rows cols sc d i _ N2 co src i (Or.inr fun hg htgt => ?_)
      obtain ⟨h1, h2, h3, h4⟩ := hg
      obtain ⟨hR, hC⟩ := (flat_target_eq_iff rows cols src _ _ h1 h2 h3 h4).mp htgt
      exact hne2 (by omega)
  · intro ro hro hne2 N1
    refine foldl_entry_preserve _ _ _ src i fun co hco N2 => ?_
    refine expInnermost_preserve rows cols sc d i ro N2 co src i (Or.inr fun hg htgt => ?_)
    obtain ⟨h1, h2, h3, h4⟩ := hg
    obtain ⟨hR, hC⟩ := (flat_target_eq_iff rows cols src _ _ h1 h2 h3 h4).mp htgt
    exact hne2 (by omega)

theorem expColumn_shape (rows cols : ℕ) (sc d : ℝ) (N : Mat) (i : ℕ) :
    (expColumn rows cols sc d N i).shape = N.shape := by
  unfold expColumn expMiddle
  refine foldl_shape _ _ _ fun N1 ro => foldl_shape _ _ _ fun N2 co => ?_
  unfold expInnermost
  split
  · exact mset_shape _ _ _ _
  · rfl

theorem exp_shape (rows cols : ℕ) (sc d : ℝ) :
    (exponential_topography (rows, cols) sc d).shape = (rows * cols, rows * cols) := by
  show ((List.range (rows * cols)).foldl (expColumn rows cols sc d)
    (zerosMat (rows * cols))).shape = (rows * cols, rows * cols)
  rw [foldl_shape _ _ _ fun N j => expColumn_shape rows cols sc d N j]
  rfl

theorem exp_entry_in (rows cols : ℕ) (sc d : ℝ) (src i : ℕ)
    (hsrc : src < rows * cols) (hi : i < rows * cols) :
    (exponential_topography (rows, cols) sc d).entry src i = expCoupling cols sc d src i := by
  show ((List.range (rows * cols)).foldl (expColumn rows cols sc d)
    (zerosMat (rows * cols))).entry src i = expCoupling cols sc d src i
  refine foldl_entry_write _ _ _ src i i (expCoupling cols sc d src i) (List.mem_range.mpr hi)
    (fun N => expColumn_write rows cols sc d i src hi hsrc N)
    (fun j _ hji N => expColumn_preserve rows cols sc d j N src i (Ne.symm hji))

theorem exp_entry_zero (rows cols : ℕ) (sc d : ℝ) (src i : ℕ)
    (h : rows * cols ≤ src ∨ rows * cols ≤ i) :
    (exponential_topography (rows, cols) sc d).entry src i = 0 := by
  show ((List.range (rows * cols)).foldl (expColumn rows cols sc d)
    (zerosMat (rows * cols))).entry src i = 0
  rcases h with h | h
  · rw [foldl_entry_preserve _ _ _ src i ?_]
    · rfl
    · intro j _ N
      by_cases hji : j = i
      · subst hji
        exact expColumn_preserve_big rows cols sc d j src h N
      · exact expColumn_preserve rows cols sc d j N src i (Ne.symm hji)
  · rw [foldl_entry_preserve _ _ _ src i fun j hj N =>
      expColumn_preserve rows cols sc d j N src i
        (fun he => by have := List.mem_range.mp hj; omega)]
    rfl

/-! Characterisation of fast_exponential_topography: the top-row loop fills
row 0 with the offset couplings, the slice loop shifts that row into the
upper triangle reading only row 0 (which rows 1 and up never overwrite), and
the final np.maximum makes the result symmetric by construction. -/

theorem fastTopRow_entry (rows cols : ℕ) (sc d : ℝ) (b : ℕ) (hb : b < rows * cols) :
    (fastTopRow (rows, cols) sc d).entry 0 b = fastRowValue cols sc d b := by
  have hcols := cols_pos_of_flat b rows cols hb
  show ((List.range rows).foldl (fastTopRowStep cols sc d)
    (zerosMat (rows * cols))).entry 0 b = fastRowValue cols sc d b
  refine foldl_entry_write _ _ _ 0 b (b / cols) (fastRowValue cols sc d b)
    (List.mem_range.mpr (flat_div_lt b rows cols hb)) ?_ ?_
  · intro N
    unfold fastTopRowStep
    refine foldl_entry_write _ _ _ 0 b (b % cols) (fastRowValue cols sc d b)
      (List.mem_range.mpr (Nat.mod_lt b hcols)) ?_ ?_
    · intro N1
      unfold fastTopWrite
      rw [flat_recompose b cols]
      exact mset_entry_self _ _ _ _
    · intro c hc hne N1
      unfold fastTopWrite
      refine mset_entry_ne _ _ _ _ _ _ (Or.inr fun he => hne ?_)
      exact (flat_decomp_unique (b / cols) c b cols (List.mem_range.mp hc) he.symm).2
  · intro row hrow hne N
    unfold fastTopRowStep
    refine foldl_entry_preserve _ _ _ 0 b fun c hc N1 => ?_
    unfold fastTopWrite
    refine mset_entry_ne _ _ _ _ _ _ (Or.inr fun he => hne ?_)
    exact (flat_decomp_unique row c b cols (List.mem_range.mp hc) he.symm).1

theorem fastTopRow_entry_zero (rows cols : ℕ) (sc d : ℝ) (a b : ℕ)
    (h : a ≠ 0 ∨ rows * cols ≤ b) :
    (fastTopRow (rows, cols) sc d).entry a b = 0 := by
  show ((List.range rows).foldl (fastTopRowStep cols sc d)
    (zerosMat (rows * cols))).entry a b = 0
  rw [foldl_entry_preserve _ _ _ a b ?_]
  · rfl
  · intro row hrow N
    unfold fastTopRowStep
    refine foldl_entry_preserve _ _ _ a b fun c hc N1 => ?_
    unfold fastTopWrite
    refine mset_entry_ne _ _ _ _ _ _ ?_
    rcases h with h | h
    · exact Or.inl h
    · refine Or.inr fun he => ?_
      have := flat_lt rows cols row c (List.mem_range.mp hrow) (List.mem_range.mp hc)
      omega

theorem sliceStep_entry_ne (size : ℕ) (N : Mat) (i a b : ℕ) (ha : a ≠ i) :
    (sliceStep size N i).entry a b = N.entry a b := by
  show (if a = i ∧ i ≤ b ∧ b < size then N.entry 0 (b - i) else N.entry a b) = N.entry a b
  rw [if_neg fun hh => ha hh.1]

theorem sliceFold_not_mem (size : ℕ) (l : List ℕ) (M : Mat) (a b : ℕ) (ha : a ∉ l) :
    (l.foldl (sliceStep size) M).entry a b = M.entry a b :=
  foldl_entry_preserve _ _ _ a b fun i hi N =>
    sliceStep_entry_ne size N i a b fun he => ha (he ▸ hi)

theorem sliceFold_mem (size : ℕ) (l : List ℕ) (M : Mat) (a b : ℕ) (ha : a ∈ l)
    (hnd : l.Nodup) (h0 : 0 ∉ l) :
    (l.foldl (sliceStep size) M).entry a b =
      if a ≤ b ∧ b < size then M.entry 0 (b - a) else M.entry a b := by
  induction l generalizing M with
  | nil => cases ha
  | cons i t ih =>
    rw [List.foldl_cons]
    have hi0 : i ≠ 0 := fun h => h0 (h ▸ List.mem_cons_self i t)
    rcases List.mem_cons.mp ha with rfl | hat
    · have hat : a ∉ t := (List.nodup_cons.mp hnd).1
      rw [sliceFold_not_mem size t _ a b hat]
      show (if a = a ∧ a ≤ b ∧ b < size then M.entry 0 (b - a) else M.entry a b) = _
      by_cases hc : a ≤ b ∧ b < size
      · rw [if_pos ⟨rfl, hc.1, hc.2⟩, if_pos hc]
      · rw [if_neg fun hh => hc ⟨hh.2.1, hh.2.2⟩, if_neg hc]
    · have hia : i ≠ a := fun h => (List.nodup_cons.mp hnd).1 (h ▸ hat)
      rw [ih (sliceStep size M i) hat (List.nodup_cons.mp hnd).2
        (fun h => h0 (List.mem_cons_of_mem i h))]
      rw [sliceStep_entry_ne size M i 0 (b - a) (Ne.symm hi0),
        sliceStep_entry_ne size M i a b (Ne.symm hia)]

theorem range'_one_mem (k a : ℕ) : a ∈ List.range' 1 k ↔ 1 ≤ a ∧ a < 1 + k :=
  List.mem_range'_1

theorem fastUpper_entry (rows cols : ℕ) (sc d : ℝ) (a b : ℕ) :
    (fastUpper (rows, cols) sc d).entry a b =
      if a < rows * cols ∧ a ≤ b ∧ b < rows * cols
      then fastRowValue cols sc d (b - a) else 0 := by
  have hshow : (fastUpper (rows, cols) sc d).entry a b =
      ((List.range' 1 (rows * cols - 1)).foldl (sliceStep (rows * cols))
        (fastTopRow (rows, cols) sc d)).entry a b := rfl
  rw [hshow]
  by_cases hmem : a ∈ List.range' 1 (rows * cols - 1)
  · obtain ⟨ha1, ha2⟩ := (range'_one_mem _ a).mp hmem
    have halt : a < rows * cols := by omega
    rw [sliceFold_mem (rows * cols) _ _ a b hmem
      (List.nodup_range' _ _ _ Nat.one_pos)
      (fun h => by have := ((range'_one_mem _ 0).mp h).1; omega)]
    by_cases hc : a ≤ b ∧ b < rows * cols
    · rw [if_pos hc, if_pos ⟨halt, hc.1, hc.2⟩]
      exact fastTopRow_entry rows cols sc d (b - a) (by omega)
    · rw [if_neg hc, if_neg fun hh => hc ⟨hh.2.1, hh.2.2⟩]
      exact fastTopRow_entry_zero rows cols sc d a b (Or.inl (by omega))
  · rw [sliceFold_not_mem _ _ _ a b hmem]
    by_cases ha0 : a = 0
    · subst ha0
      by_cases hb : b < rows * cols
      · rw [if_pos ⟨by omega, by omega, hb⟩, fastTopRow_entry rows cols sc d b hb]
        rw [Nat.sub_zero]
      · rw [if_neg fun hh => hb hh.2.2]
        exact fastTopRow_entry_zero rows cols sc d 0 b (Or.inr (by omega))
    · have hbig : rows * cols ≤ a := by
        rcases Nat.lt_or_ge a (rows * cols) with h | h
        · exact absurd ((range'_one_mem _ a).mpr ⟨by omega, by omega⟩) hmem
        · exact h
      rw [if_neg fun hh => by omega]
      exact fastTopRow_entry_zero rows cols sc d a b (Or.inl ha0)

theorem fast_entry (rows cols : ℕ) (sc d : ℝ) (a b : ℕ) :
    (fast_exponential_topography (rows, cols) sc d).entry a b =
      max ((fastUpper (rows, cols) sc d).entry a b)
        ((fastUpper (rows, cols) sc d).entry b a) := rfl

/-! Characterisation of stratified_topography: iteration i of the outer loop
writes exactly row i, one entry per inner iteration. -/

theorem stratRow_preserve (cm dd cd : ℝ) (size : ℕ) (i : ℕ) (N : Mat) (a b : ℕ)
    (ha : a ≠ i) :
    (stratRow cm dd cd size N i).entry a b = N.entry a b := by
  unfold stratRow
  refine foldl_entry_preserve _ _ _ a b fun j _ N1 => ?_
  unfold stratWrite
  exact mset_entry_ne _ _ _ _ _ _ (Or.inl ha)

theorem stratRow_write (cm dd cd : ℝ) (size : ℕ) (i b : ℕ) (hb : b < size) (N : Mat) :
    (stratRow cm dd cd size N i).entry i b = stratCoupling cm dd cd i b := by
  unfold stratRow
  refine foldl_entry_write _ _ _ i b b (stratCoupling cm dd cd i b)
    (List.mem_range.mpr hb) ?_ ?_
  · intro N1
    unfold stratWrite
    exact mset_entry_self _ _ _ _
  · intro j _ hne N1
    unfold stratWrite
    exact mset_entry_ne _ _ _ _ _ _ (Or.inr fun he => hne (he.symm ▸ rfl))

theorem stratRow_miss (cm dd cd : ℝ) (size : ℕ) (i b : ℕ) (hb : size ≤ b) (N : Mat) :
    (stratRow cm dd cd size N i).entry i b = N.entry i b := by
  unfold stratRow
  refine foldl_entry_preserve _ _ _ i b fun j hj N1 => ?_
  unfold stratWrite
  refine mset_entry_ne _ _ _ _ _ _ (Or.inr fun he => ?_)
  have := List.mem_range.mp hj
  omega

theorem strat_entry_in (rows cols : ℕ) (cm dd cd : ℝ) (i j : ℕ)
    (hi : i < rows * cols) (hj : j < rows * cols) :
    (stratified_topography (rows, cols) cm dd cd).entry i j = stratCoupling cm dd cd i j := by
  show ((List.range (rows * cols)).foldl (stratRow cm dd cd (rows * cols))
    (zerosMat (rows * cols))).entry i j = stratCoupling cm dd cd i j
  refine foldl_entry_write _ _ _ i j i (stratCoupling cm dd cd i j) (List.mem_range.mpr hi)
    (fun N => stratRow_write cm dd cd (rows * cols) i j hj N)
    (fun a _ hai N => stratRow_preserve cm dd cd (rows * cols) a N i j (Ne.symm hai))

theorem strat_entry_zero (rows cols : ℕ) (cm dd cd : ℝ) (i j : ℕ)
    (h : rows * cols ≤ i ∨ rows * cols ≤ j) :
    (stratified_topography (rows, cols) cm dd cd).entry i j = 0 := by
  show ((List.range (rows * cols)).foldl (stratRow cm dd cd (rows * cols))
    (zerosMat (rows * cols))).entry i j = 0
  rw [foldl_entry_preserve _ _ _ i j ?_]
  · rfl
  · intro a ha N
    rcases h with h | h
    · exact stratRow_preserve cm dd cd (rows * cols) a N i j
        (fun he => by have := List.mem_range.mp ha; omega)
    · by_cases hai : a = i
      · subst hai
        exact stratRow_miss cm dd cd (rows * cols) a j h N
      · exact stratRow_preserve cm dd cd (rows * cols) a N i j (Ne.symm hai)

theorem stratCoupling_symm (cm dd cd : ℝ) (i j : ℕ) :
    stratCoupling cm dd cd i j = stratCoupling cm dd cd j i := by
  unfold stratCoupling
  have h1 : ((i : ℤ) - (j : ℤ)).natAbs = ((j : ℤ) - (i : ℤ)).natAbs := by
    rw [← Int.natAbs_neg, neg_sub]
  rw [h1]
  ring_nf

theorem stratified_symm (rows cols : ℕ) (cm dd cd : ℝ) (i j : ℕ) :
    (stratified_topography (rows, cols) cm dd cd).entry i j =
    (stratified_topography (rows, cols) cm dd cd).entry j i := by
  by_cases hi : i < rows * cols
  · by_cases hj : j < rows * cols
    · rw [strat_entry_in rows cols cm dd cd i j hi hj,
        strat_entry_in rows cols cm dd cd j i hj hi]
      exact stratCoupling_symm cm dd cd i j
    · rw [strat_entry_zero rows cols cm dd cd i j (Or.inr (by omega)),
        strat_entry_zero rows cols cm dd cd j i (Or.inl (by omega))]
  · rw [strat_entry_zero rows cols cm dd cd i j (Or.inl (by omega)),
      strat_entry_zero rows cols cm dd cd j i (Or.inr (by omega))]

/-! Symmetry of the two exponential topographies. -/

theorem expCoupling_symm (cols : ℕ) (sc d : ℝ) (a b : ℕ) :
    expCoupling cols sc d a b = expCoupling cols sc d b a := by
  unfold expCoupling
  push_cast
  have h : ∀ x y u v : ℝ, (x - y) ^ 2 + (u - v) ^ 2 = (y - x) ^ 2 + (v - u) ^ 2 :=
    fun x y u v => by ring
  rw [h (((a : ℤ) / (cols : ℤ) : ℤ) : ℝ) (((b : ℤ) / (cols : ℤ) : ℤ) : ℝ)
    (((a : ℤ) % (cols : ℤ) : ℤ) : ℝ) (((b : ℤ) % (cols : ℤ) : ℤ) : ℝ)]

theorem exponential_symm (rows cols : ℕ) (sc d : ℝ) (a b : ℕ) :
    (exponential_topography (rows, cols) sc d).entry a b =
    (exponential_topography (rows, cols) sc d).entry b a := by
  by_cases ha : a < rows * cols
  · by_cases hb : b < rows * cols
    · rw [exp_entry_in rows cols sc d a b ha hb, exp_entry_in rows cols sc d b a hb ha]
      exact expCoupling_symm cols sc d a b
    · rw [exp_entry_zero rows cols sc d a b (Or.inr (by omega)),
        exp_entry_zero rows cols sc d b a (Or.inl (by omega))]
  · rw [exp_entry_zero rows cols sc d a b (Or.inl (by omega)),
      exp_entry_zero rows cols sc d b a (Or.inr (by omega))]

theorem fast_symm (rows cols : ℕ) (sc d : ℝ) (a b : ℕ) :
    (fast_exponential_topography (rows, cols) sc d).entry a b =
    (fast_exponential_topography (rows, cols) sc d).entry b a := by
  rw [fast_entry, fast_entry, max_comm]

/-! Shared lemmas about the two models. -/

theorem SEIR_core_eq_simultaneous {n : ℕ} (m : SEIR_Model n) (dt : ℝ)
    (t : ℕ → ℕ → ℝ) : m.timestepCore dt t = m.timestepSimultaneous dt t := rfl

theorem SEIR_core_eq_reversed {n : ℕ} (m : SEIR_Model n) (dt : ℝ)
    (t : ℕ → ℕ → ℝ) : m.timestepCore dt t = m.timestepReversed dt t := rfl

theorem SEIRDS_core_eq_simultaneous {n : ℕ} (m : SEIRDS_Model n) (dt : ℝ)
    (t : ℕ → ℕ → ℝ) : m.timestepCore dt t = m.timestepSimultaneous dt t := rfl

theorem SEIRDS_core_eq_reversed {n : ℕ} (m : SEIRDS_Model n) (dt : ℝ)
    (t : ℕ → ℕ → ℝ) : m.timestepCore dt t = m.timestepReversed dt t := rfl

theorem SEIR_step_total {n : ℕ} (m : SEIR_Model n) (dt : ℝ) (t : ℕ → ℕ → ℝ) :
    (m.timestepCore dt t).total = m.total := by
  have h : (m.timestepCore dt t).total =
      (∑ j, (m.s j - m.newly_exposed dt t j)) +
      (∑ j, (m.e j + m.newly_exposed dt t j - m.newly_infected dt j)) +
      (∑ j, (m.i j + m.newly_infected dt j - m.newly_resistant dt j)) +
      (∑ j, (m.r j + m.newly_resistant dt j)) := rfl
  rw [h]
  unfold SEIR_Model.total
  simp only [Finset.sum_sub_distrib, Finset.sum_add_distrib]
  ring

theorem SEIRDS_step_total {n : ℕ} (m : SEIRDS_Model n) (dt : ℝ) (t : ℕ → ℕ → ℝ) :
    (m.timestepCore dt t).total = m.total := by
  have h : (m.timestepCore dt t).total =
      (∑ j, (m.s j + (m.newly_susceptible dt j - m.newly_exposed dt t j))) +
      (∑ j, (m.e j + (m.newly_exposed dt t j - m.newly_infected dt j))) +
      (∑ j, (m.i j + (m.newly_infected dt j - m.newly_resistant dt j - m.newly_dead dt j))) +
      (∑ j, (m.r j + (m.newly_resistant dt j - m.newly_susceptible dt j))) +
      (∑ j, (m.d j + m.newly_dead dt j)) := rfl
  rw [h]
  unfold SEIRDS_Model.total
  simp only [Finset.sum_sub_distrib, Finset.sum_add_distrib]
  ring

theorem SEIR_steps_total {n : ℕ} (m : SEIR_Model n) (dt : ℝ) (t : ℕ → ℕ → ℝ) (k : ℕ) :
    (m.steps dt t k).total = m.total := by
  induction k with
  | zero => rfl
  | succ k ih => rw [SEIR_Model.steps, SEIR_step_total, ih]

theorem SEIRDS_steps_total {n : ℕ} (m : SEIRDS_Model n) (dt : ℝ) (t : ℕ → ℕ → ℝ) (k : ℕ) :
    (m.steps dt t k).total = m.total := by
  induction k with
  | zero => rfl
  | succ k ih => rw [SEIRDS_Model.steps, SEIRDS_step_total, ih]

theorem SEIR_infect_def {n : ℕ} (m : SEIR_Model n) (c : Fin n) (x : ℝ) :
    m.infect c x = { m with s := fun j => if j = c then m.s j - x else m.s j,
                            i := fun j => if j = c then m.i j + x else m.i j } := rfl

theorem SEIRDS_infect_def {n : ℕ} (m : SEIRDS_Model n) (c : Fin n) (x : ℝ) :
    m.infect c x = { m with s := fun j => if j = c then m.s j - x else m.s j,
                            i := fun j => if j = c then m.i j + x else m.i j } := rfl

theorem SEIR_run_pop {n : ℕ} (m : SEIR_Model n) (ops : List (ModelOp n)) :
    (m.run ops).pop = m.pop := by
  induction ops generalizing m with
  | nil => rfl
  | cons op rest ih =>
    cases op with
    | infect c x => exact ih (m.infect c x)
    | step dt t => exact ih (m.timestepCore dt t)

theorem SEIRDS_run_pop {n : ℕ} (m : SEIRDS_Model n) (ops : List (ModelOp n)) :
    (m.run ops).pop = m.pop := by
  induction ops generalizing m with
  | nil => rfl
  | cons op rest ih =>
    cases op with
    | infect c x => exact ih (m.infect c x)
    | step dt t => exact ih (m.timestepCore dt t)

theorem SEIRDS_matches_init {n : ℕ} (pop : Fin n → ℝ) (beta sigma gamma : ℝ) :
    SEIRDS_matches (SEIR_Model.init pop beta sigma gamma)
      (SEIRDS_Model.init pop beta sigma gamma 0 0) :=
  ⟨rfl, rfl, rfl, rfl, rfl, rfl, rfl, rfl, rfl, rfl, rfl⟩

theorem SEIRDS_matches_infect {n : ℕ} (a : SEIR_Model n) (b : SEIRDS_Model n)
    (hm : SEIRDS_matches a b) (c : Fin n) (x : ℝ) :
    SEIRDS_matches (a.infect c x) (b.infect c x) := by
  obtain ⟨hb, hsg, hg, hdig, hrho, hs, he, hi, hr, hd, hsc⟩ := hm
  rw [SEIR_infect_def, SEIRDS_infect_def]
  exact ⟨hb, hsg, hg, hdig, hrho, by rw [hs], he, by rw [hi], hr, hd, hsc⟩

theorem SEIRDS_matches_step {n : ℕ} (a : SEIR_Model n) (b : SEIRDS_Model n)
    (hm : SEIRDS_matches a b) (dt : ℝ) (t : ℕ → ℕ → ℝ) :
    SEIRDS_matches (a.timestepCore dt t) (b.timestepCore dt t) := by
  obtain ⟨hb, hsg, hg, hdig, hrho, hs, he, hi, hr, hd, hsc⟩ := hm
  rw [SEIR_core_eq_simultaneous, SEIRDS_core_eq_simultaneous]
  unfold SEIR_Model.timestepSimultaneous SEIRDS_Model.timestepSimultaneous
  refine ⟨hb, hsg, hg, hdig, hrho, ?_, ?_, ?_, ?_, ?_, hsc⟩
  · funext j
    show a.s j - a.newly_exposed dt t j =
      b.s j + (b.newly_susceptible dt j - b.newly_exposed dt t j)
    unfold SEIR_Model.newly_exposed SEIR_Model.exposure SEIR_Model.infectious
      SEIRDS_Model.newly_exposed SEIRDS_Model.exposure SEIRDS_Model.infectious
      SEIRDS_Model.newly_susceptible
    rw [hb, hs, hi, hsc, hrho]
    ring
  · funext j
    show a.e j + a.newly_exposed dt t j - a.newly_infected dt j =
      b.e j + (b.newly_exposed dt t j - b.newly_infected dt j)
    unfold SEIR_Model.newly_exposed SEIR_Model.exposure SEIR_Model.infectious
      SEIR_Model.newly_infected
      SEIRDS_Model.newly_exposed SEIRDS_Model.exposure SEIRDS_Model.infectious
      SEIRDS_Model.newly_infected
    rw [hb, hs, hi, hsc, he, hsg]
    ring
  · funext j
    show a.i j + a.newly_infected dt j - a.newly_resistant dt j =
      b.i j + (b.newly_infected dt j - b.newly_resistant dt j - b.newly_dead dt j)
    unfold SEIR_Model.newly_infected SEIR_Model.newly_resistant
      SEIRDS_Model.newly_infected SEIRDS_Model.newly_resistant SEIRDS_Model.newly_dead
    rw [hi, he, hsg, hg, hdig]
    ring
  · funext j
    show a.r j + a.newly_resistant dt j =
      b.r j + (b.newly_resistant dt j - b.newly_susceptible dt j)
    unfold SEIR_Model.newly_resistant SEIRDS_Model.newly_resistant
      SEIRDS_Model.newly_susceptible
    rw [hr, hi, hg, hrho]
    ring
  · funext j
    show b.d j + b.newly_dead dt j = 0
    unfold SEIRDS_Model.newly_dead
    rw [hd, hdig]
    ring

theorem SEIRDS_matches_run {n : ℕ} (a : SEIR_Model n) (b : SEIRDS_Model n)
    (hm : SEIRDS_matches a b) (ops : List (ModelOp n)) :
    SEIRDS_matches (a.run ops) (b.run ops) := by
  induction ops generalizing a b with
  | nil => exact hm
  | cons op rest ih =>
    cases op with
    | infect c x => exact ih _ _ (SEIRDS_matches_infect a b hm c x)
    | step dt t => exact ih _ _ (SEIRDS_matches_step a b hm dt t)

/-! Concrete entries of the two exponential topographies on the 2 x 2 grid:
cells 1 = (0, 1) and 2 = (1, 0) are at euclidean distance sqrt 2, but the
row-shifting construction handles the flat offset 2 - 1 = 1 as the offset of
cell 1 from the origin, distance 1. -/

theorem exp22_entry : (exponential_topography (2, 2) 1 1).entry 1 2 =
    Real.exp (-(Real.sqrt 2)) := by
  rw [exp_entry_in 2 2 1 1 1 2 (by norm_num) (by norm_num)]
  unfold expCoupling
  norm_num

theorem fast22_entry : (fast_exponential_topography (2, 2) 1 1).entry 1 2 =
    Real.exp (-1) := by
  have h1 : (fastUpper (2, 2) 1 1).entry 1 2 = fastRowValue 2 1 1 1 := by
    rw [fastUpper_entry]
    norm_num
  have h2 : (fastUpper (2, 2) 1 1).entry 2 1 = 0 := by
    rw [fastUpper_entry]
    norm_num
  have h3 : fastRowValue 2 1 1 1 = Real.exp (-1) := by
    unfold fastRowValue
    norm_num [Real.sqrt_one]
  rw [fast_entry, h1, h2, h3, max_eq_left (Real.exp_pos (-1)).le]

theorem sqrt_two_ge : (1.414 : ℝ) ≤ Real.sqrt 2 := by
  have hs2 : Real.sqrt 2 ^ 2 = 2 := Real.sq_sqrt (by norm_num)
  have hsn : 0 ≤ Real.sqrt 2 := Real.sqrt_nonneg 2
  nlinarith [hs2, hsn]

theorem exp_sqrt_two_ge : (2.914 : ℝ) ≤ Real.exp (Real.sqrt 2) := by
  have ha := Real.add_one_le_exp (Real.sqrt 2 / 2)
  have hb : Real.exp (Real.sqrt 2 / 2) ^ 2 = Real.exp (Real.sqrt 2) := by
    rw [← Real.exp_nat_mul]
    congr 1
    push_cast
    ring
  have hs2 : Real.sqrt 2 ^ 2 = 2 := Real.sq_sqrt (by norm_num)
  nlinarith [ha, hb, hs2, sqrt_two_ge, Real.sqrt_nonneg 2, Real.exp_pos (Real.sqrt 2 / 2)]

theorem exp_neg_gap : Real.exp (-1) - Real.exp (-(Real.sqrt 2)) > 1 / 1000000000 := by
  rw [Real.exp_neg, Real.exp_neg]
  have he1 : Real.exp 1 < 2.7182818286 := Real.exp_one_lt_d9
  have he1p : (0 : ℝ) < Real.exp 1 := Real.exp_pos 1
  have h1 : (2.7182818286 : ℝ)⁻¹ < (Real.exp 1)⁻¹ :=
    (inv_lt_inv (by norm_num) he1p).mpr he1
  have h2 : (Real.exp (Real.sqrt 2))⁻¹ ≤ (2.914 : ℝ)⁻¹ :=
    inv_le_inv_of_le (by norm_num) exp_sqrt_two_ge
  have hnum : (2.7182818286 : ℝ)⁻¹ - (2.914 : ℝ)⁻¹ > 1 / 1000000000 := by norm_num
  linarith

/-! The claims. -/

/-- C1: for every model (SEIR or SEIRDS), every topography matrix of the
required (cells, cells) shape, every dt and every number of timestep calls,
the total population sum(S)+sum(E)+sum(I)+sum(R) (plus sum(D) for SEIRDS)
after the steps equals the initial total population exactly (in the exact
arithmetic of this embedding), because every inter-compartment flow
subtracts from one compartment exactly what it adds to another. -/
theorem claim_C1 (n : ℕ) (dt : ℝ) (T : Mat) (_hT : T.shape = (n, n)) (k : ℕ) :
    (∀ m : SEIR_Model n, (m.steps dt T.entry k).total = m.total) ∧
    (∀ m : SEIRDS_Model n, (m.steps dt T.entry k).total = m.total) :=
  ⟨fun m => SEIR_steps_total m dt T.entry k, fun m => SEIRDS_steps_total m dt T.entry k⟩

/-- Witness for C1 at a concrete one-cell model, the 1 x 1 zero topography
and two steps. -/
theorem claim_C1_witness :
    ((SEIR_Model.init (fun _ => (100 : ℝ)) 1 1 1 : SEIR_Model 1).steps 1
      (zerosMat 1).entry 2).total =
    (SEIR_Model.init (fun _ => (100 : ℝ)) 1 1 1 : SEIR_Model 1).total :=
  (claim_C1 1 1 (zerosMat 1) rfl 2).1 _

/-- C4: in every timestep call of both models all flow quantities are
computed from the pre-update compartment state before any compartment array
is mutated, so the sequential writes of the source equal the simultaneous
explicit forward-Euler update and also the update performed in the reverse
write order: the result is independent of the order in which the
compartments are written. The flow arrays newly_exposed (the dotted and
reshaped beta * dt * scale * I term times S), newly_infected
(sigma * dt * E), newly_resistant (gamma * dt * I), and for SEIRDS also
newly_dead (digamma * dt * I) and newly_susceptible (rho * dt * R), are the
named definitions used by both the sequential and the simultaneous form. -/
theorem claim_C4 (n : ℕ) (dt : ℝ) (t : ℕ → ℕ → ℝ) :
    (∀ m : SEIR_Model n, m.timestepCore dt t = m.timestepSimultaneous dt t ∧
      m.timestepCore dt t = m.timestepReversed dt t) ∧
    (∀ m : SEIRDS_Model n, m.timestepCore dt t = m.timestepSimultaneous dt t ∧
      m.timestepCore dt t = m.timestepReversed dt t) :=
  ⟨fun _ => ⟨rfl, rfl⟩, fun _ => ⟨rfl, rfl⟩⟩

/-- C5: for every model state (in particular every freshly constructed one),
every cell and every amount x, infect(cell, x) decreases S at that cell by x
and increases I at that cell by x, leaves every other cell of S and I
unchanged, leaves E, R (and D for SEIRDS) unchanged, and no bound against
S[cell] being at least x is checked: the statement holds for every real x. -/
theorem claim_C5 {n : ℕ} (m : SEIR_Model n) (m2 : SEIRDS_Model n) (cell : Fin n) (x : ℝ) :
    ((m.infect cell x).s cell = m.s cell - x) ∧
    ((m.infect cell x).i cell = m.i cell + x) ∧
    (∀ j : Fin n, j ≠ cell → (m.infect cell x).s j = m.s j ∧ (m.infect cell x).i j = m.i j) ∧
    ((m.infect cell x).e = m.e) ∧ ((m.infect cell x).r = m.r) ∧
    ((m2.infect cell x).s cell = m2.s cell - x) ∧
    ((m2.infect cell x).i cell = m2.i cell + x) ∧
    (∀ j : Fin n, j ≠ cell →
      (m2.infect cell x).s j = m2.s j ∧ (m2.infect cell x).i j = m2.i j) ∧
    ((m2.infect cell x).e = m2.e) ∧ ((m2.infect cell x).r = m2.r) ∧
    ((m2.infect cell x).d = m2.d) := by
  refine ⟨?_, ?_, ?_, rfl, rfl, ?_, ?_, ?_, rfl, rfl, rfl⟩
  · show (if cell = cell then m.s cell - x else m.s cell) = m.s cell - x
    rw [if_pos rfl]
  · show (if cell = cell then m.i cell + x else m.i cell) = m.i cell + x
    rw [if_pos rfl]
  · intro j hj
    constructor
    · show (if j = cell then m.s j - x else m.s j) = m.s j
      rw [if_neg hj]
    · show (if j = cell then m.i j + x else m.i j) = m.i j
      rw [if_neg hj]
  · show (if cell = cell then m2.s cell - x else m2.s cell) = m2.s cell - x
    rw [if_pos rfl]
  · show (if cell = cell then m2.i cell + x else m2.i cell) = m2.i cell + x
    rw [if_pos rfl]
  · intro j hj
    constructor
    · show (if j = cell then m2.s j - x else m2.s j) = m2.s j
      rw [if_neg hj]
    · show (if j = cell then m2.i j + x else m2.i j) = m2.i j
      rw [if_neg hj]

/-- Witness for C5 on concrete two-cell models: infecting cell 0 leaves S
and I at cell 1 unchanged. -/
theorem claim_C5_witness :
    ((SEIR_Model.init (fun _ => (100 : ℝ)) 1 1 1 : SEIR_Model 2).infect 0 5).s 1 =
      (SEIR_Model.init (fun _ => (100 : ℝ)) 1 1 1 : SEIR_Model 2).s 1 ∧
    ((SEIRDS_Model.init (fun _ => (100 : ℝ)) 1 1 1 1 1 : SEIRDS_Model 2).infect 0 5).i 1 =
      (SEIRDS_Model.init (fun _ => (100 : ℝ)) 1 1 1 1 1 : SEIRDS_Model 2).i 1 :=
  ⟨((claim_C5 (SEIR_Model.init (fun _ => (100 : ℝ)) 1 1 1)
      (SEIRDS_Model.init (fun _ => (100 : ℝ)) 1 1 1 1 1) 0 5).2.2.1 1 (by decide)).1,
   ((claim_C5 (SEIR_Model.init (fun _ => (100 : ℝ)) 1 1 1)
      (SEIRDS_Model.init (fun _ => (100 : ℝ)) 1 1 1 1 1) 0 5).2.2.2.2.2.2.2.1 1
      (by decide)).2⟩

/-- C6: timestep(dt, topography) checks the precondition that the topography
shape is (cells, cells) where cells is the size of the population array; a
violated precondition is an assertion-style abort (modelled as none, no
successor state), not a recoverable error, and when the precondition holds
the assertion never fires and the step completes with the updated state. -/
theorem claim_C6 {n : ℕ} (m : SEIR_Model n) (m2 : SEIRDS_Model n) (dt : ℝ) (T : Mat) :
    (T.shape = (n, n) → m.timestep dt T = some (m.timestepCore dt T.entry) ∧
      m2.timestep dt T = some (m2.timestepCore dt T.entry)) ∧
    (T.shape ≠ (n, n) → m.timestep dt T = none ∧ m2.timestep dt T = none) := by
  constructor
  · intro h
    constructor
    · unfold SEIR_Model.timestep
      rw [if_pos h]
    · unfold SEIRDS_Model.timestep
      rw [if_pos h]
  · intro h
    constructor
    · unfold SEIR_Model.timestep
      rw [if_neg h]
    · unfold SEIRDS_Model.timestep
      rw [if_neg h]

/-- Witness for C6 on a concrete one-cell model: the matching 1 x 1 zero
matrix steps, the mismatched 2 x 2 zero matrix aborts. -/
theorem claim_C6_witness :
    (SEIR_Model.init (fun _ => (1 : ℝ)) 0 0 0 : SEIR_Model 1).timestep 1 (zerosMat 1) =
      some ((SEIR_Model.init (fun _ => (1 : ℝ)) 0 0 0 : SEIR_Model 1).timestepCore 1
        (zerosMat 1).entry) ∧
    (SEIR_Model.init (fun _ => (1 : ℝ)) 0 0 0 : SEIR_Model 1).timestep 1 (zerosMat 2) = none :=
  ⟨((claim_C6 (SEIR_Model.init (fun _ => (1 : ℝ)) 0 0 0)
      (SEIRDS_Model.init (fun _ => (1 : ℝ)) 0 0 0 0 0) 1 (zerosMat 1)).1 rfl).1,
   ((claim_C6 (SEIR_Model.init (fun _ => (1 : ℝ)) 0 0 0)
      (SEIRDS_Model.init (fun _ => (1 : ℝ)) 0 0 0 0 0) 1 (zerosMat 2)).2 (by decide)).1⟩

/-- C7: after construction of either model from a population array, S equals
the population array elementwise while being an independent copy: no
subsequent infect or timestep call, in any sequence, ever alters the stored
population array (the field the caller passed in); E, I, R (and D for
SEIRDS) start as zero-filled arrays of the same shape and
scale = 1 / N is precomputed per cell. -/
theorem claim_C7 {n : ℕ} (populations : Fin n → ℝ) (beta sigma gamma digamma rho : ℝ) :
    ((SEIR_Model.init populations beta sigma gamma).s = populations) ∧
    ((SEIR_Model.init populations beta sigma gamma).e = fun _ => 0) ∧
    ((SEIR_Model.init populations beta sigma gamma).i = fun _ => 0) ∧
    ((SEIR_Model.init populations beta sigma gamma).r = fun _ => 0) ∧
    ((SEIR_Model.init populations beta sigma gamma).scale = fun k => 1 / populations k) ∧
    (∀ ops : List (ModelOp n),
      ((SEIR_Model.init populations beta sigma gamma).run ops).pop = populations) ∧
    ((SEIRDS_Model.init populations beta sigma gamma digamma rho).s = populations) ∧
    ((SEIRDS_Model.init populations beta sigma gamma digamma rho).e = fun _ => 0) ∧
    ((SEIRDS_Model.init populations beta sigma gamma digamma rho).i = fun _ => 0) ∧
    ((SEIRDS_Model.init populations beta sigma gamma digamma rho).r = fun _ => 0) ∧
    ((SEIRDS_Model.init populations beta sigma gamma digamma rho).d = fun _ => 0) ∧
    ((SEIRDS_Model.init populations beta sigma gamma digamma rho).scale =
      fun k => 1 / populations k) ∧
    (∀ ops : List (ModelOp n),
      ((SEIRDS_Model.init populations beta sigma gamma digamma rho).run ops).pop =
        populations) :=
  ⟨rfl, rfl, rfl, rfl, rfl, fun ops => SEIR_run_pop _ ops,
   rfl, rfl, rfl, rfl, rfl, rfl, fun ops => SEIRDS_run_pop _ ops⟩

/-- C8: the matrices returned by exponential_topography and
fast_exponential_topography are each exactly symmetric: every entry equals
the transposed entry. -/
theorem claim_C8 (rows cols : ℕ) (sc d : ℝ) (a b : ℕ) :
    (exponential_topography (rows, cols) sc d).entry a b =
      (exponential_topography (rows, cols) sc d).entry b a ∧
    (fast_exponential_topography (rows, cols) sc d).entry a b =
      (fast_exponential_topography (rows, cols) sc d).entry b a :=
  ⟨exponential_symm rows cols sc d a b, fast_symm rows cols sc d a b⟩

/-- C9: for every grid shape and couplings, nearest_neighbour_topography
returns a (cells, cells) matrix with self_coupling at every diagonal entry
with index below cells, neighbour_coupling at entry (n, i) for each of the
up to 8 grid-adjacent within-bounds neighbours n of i (uniform, not
distance-weighted), and zero everywhere else. -/
theorem claim_C9 (rows cols : ℕ) (sc nc : ℝ) :
    ((nearest_neighbour_topography (rows, cols) sc nc).shape =
      (rows * cols, rows * cols)) ∧
    (∀ i : ℕ, i < rows * cols →
      (nearest_neighbour_topography (rows, cols) sc nc).entry i i = sc) ∧
    (∀ src i : ℕ, i < rows * cols → src < rows * cols → src ≠ i →
      gridAdjacent cols src i →
      (nearest_neighbour_topography (rows, cols) sc nc).entry src i = nc) ∧
    (∀ src i : ℕ, ¬(i < rows * cols ∧ src = i) →
      ¬(i < rows * cols ∧ src < rows * cols ∧ src ≠ i ∧ gridAdjacent cols src i) →
      (nearest_neighbour_topography (rows, cols) sc nc).entry src i = 0) :=
  ⟨nn_shape rows cols sc nc,
   fun i hi => nn_entry_diag rows cols sc nc i hi,
   fun src i hi hsrc hne hadj => nn_entry_neighbour rows cols sc nc src i hi hsrc hne hadj,
   fun src i h1 h2 => nn_entry_zero rows cols sc nc src i h1 h2⟩

/-- Witness for C9 on the 2 x 3 grid: the diagonal entry (0, 0) carries the
self coupling, the adjacent pair (1, 0) the neighbour coupling, and the
non-adjacent pair (5, 0) is zero. -/
theorem claim_C9_witness :
    (nearest_neighbour_topography (2, 3) 5 7).entry 0 0 = 5 ∧
    (nearest_neighbour_topography (2, 3) 5 7).entry 1 0 = 7 ∧
    (nearest_neighbour_topography (2, 3) 5 7).entry 5 0 = 0 :=
  ⟨(claim_C9 2 3 5 7).2.1 0 (by decide),
   (claim_C9 2 3 5 7).2.2.1 1 0 (by decide) (by decide) (by decide) (by decide),
   (claim_C9 2 3 5 7).2.2.2 5 0 (by decide) (by decide)⟩

/-- C10: an SEIRDS model constructed with digamma = 0 and rho = 0 is
trajectory-equivalent to an SEIR model constructed with the same populations,
beta, sigma and gamma: after any identical sequence of infect and timestep
calls the S, E, I and R arrays of the two models are equal and the SEIRDS D
array stays all-zero. -/
theorem claim_C10 {n : ℕ} (populations : Fin n → ℝ) (beta sigma gamma : ℝ)
    (ops : List (ModelOp n)) :
    (((SEIR_Model.init populations beta sigma gamma).run ops).s =
      ((SEIRDS_Model.init populations beta sigma gamma 0 0).run ops).s) ∧
    (((SEIR_Model.init populations beta sigma gamma).run ops).e =
      ((SEIRDS_Model.init populations beta sigma gamma 0 0).run ops).e) ∧
    (((SEIR_Model.init populations beta sigma gamma).run ops).i =
      ((SEIRDS_Model.init populations beta sigma gamma 0 0).run ops).i) ∧
    (((SEIR_Model.init populations beta sigma gamma).run ops).r =
      ((SEIRDS_Model.init populations beta sigma gamma 0 0).run ops).r) ∧
    (((SEIRDS_Model.init populations beta sigma gamma 0 0).run ops).d = fun _ => 0) := by
  obtain ⟨_, _, _, _, _, hs, he, hi, hr, hd, _⟩ :=
    SEIRDS_matches_run _ _ (SEIRDS_matches_init populations beta sigma gamma) ops
  exact ⟨hs, he, hi, hr, hd⟩

/-- C3, counterexample: the claim asserts that with nonzero coupling_decay
the stratified topography has some entry differing from its transpose; on
the (2, 2) grid with all three parameters 1 (coupling_decay = 1, nonzero)
no such pair of indices exists. -/
theorem claim_C3_counterexample :
    ¬ ∃ i j : ℕ, (stratified_topography (2, 2) 1 1 1).entry i j ≠
      (stratified_topography (2, 2) 1 1 1).entry j i := by
  rintro ⟨i, j, hne⟩
  exact hne (stratified_symm 2 2 1 1 1 i j)

/-- C3, amended: stratified_topography is exactly symmetric for every grid
shape and all parameters, including nonzero coupling_decay, because its
coupling depends on the index pair only through the distance abs(i - j) and
the average (i + j) / 2, both symmetric in i and j. -/
theorem claim_C3 (rows cols : ℕ) (cm dd cd : ℝ) (i j : ℕ) :
    (stratified_topography (rows, cols) cm dd cd).entry i j =
    (stratified_topography (rows, cols) cm dd cd).entry j i :=
  stratified_symm rows cols cm dd cd i j

/-- C2: the claim that fast_exponential_topography equals
exponential_topography elementwise within 1e-9 for every shape fails on the
code: on the (2, 2) grid with self_coupling 1 and decay 1 the entry (1, 2)
is exp(-1) in the fast version (flat-offset distance 1) but exp(-sqrt 2) in
the direct version (true grid distance), a gap larger than 1e-9. The
repository test test_fast_exponential asserts exactly this equivalence, so
this is a defect of the fast algorithm. -/
theorem claim_C2 :
    |(fast_exponential_topography (2, 2) 1 1).entry 1 2 -
      (exponential_topography (2, 2) 1 1).entry 1 2| > 1 / 1000000000 := by
  rw [fast22_entry, exp22_entry]
  have hlt : Real.exp (-(Real.sqrt 2)) < Real.exp (-1) := by
    have := sqrt_two_ge
    exact Real.exp_lt_exp.mpr (by linarith)
  rw [abs_of_pos (by linarith)]
  have := exp_neg_gap
  linarith
